import Mathlib

/-!
Verification of the persistence and asset-management core of
`rehearsal_track_markers` against its specification.

The Python source is shallowly embedded:

* `models/marker.py`, `models/track.py`, `models/show.py` become the
  structures `Marker`, `Track`, `Settings`, `Show` below; the dataclass
  `__post_init__` validation is folded into the `from_dict` decoders
  (constructing raises `ValueError` in Python, modelled as `Except.error`).
* JSON dictionaries produced/consumed by `to_dict`/`from_dict` become the
  document structures `MarkerDoc`, `TrackDoc`, `SettingsDoc`, `ShowDoc`;
  a key that may be absent (`dict.get` with a default) is an `Option` field.
* Filesystem paths are lists of components (`List String`); file contents
  are byte lists (`List Nat`).
* Python's `str.strip()` (used by the validation code) is modelled by
  `pyStrip`, which drops leading and trailing whitespace characters.
-/

namespace RTM

/-- Models Python's `str.strip()`: removes leading and trailing
whitespace. -/
def pyStrip (s : String) : String :=
  String.mk (((s.data.dropWhile Char.isWhitespace).reverse.dropWhile Char.isWhitespace).reverse)

/-- A timestamped marker (models `Marker` in `models/marker.py`). -/
structure Marker where
  name : String
  timestamp_ms : Int
deriving DecidableEq, Repr

/-- JSON document for a marker, as produced by `Marker.to_dict`. -/
structure MarkerDoc where
  name : String
  timestamp_ms : Int
deriving DecidableEq, Repr

/-- Models `Marker.to_dict`. -/
def Marker.to_dict (m : Marker) : MarkerDoc :=
  { name := m.name, timestamp_ms := m.timestamp_ms }

/-- Models `Marker.from_dict` composed with the `__post_init__` validation
of the `Marker` dataclass (empty/whitespace-only name and negative
timestamp raise `ValueError`). -/
def Marker.from_dict (d : MarkerDoc) : Except String Marker :=
  if d.name = "" ∨ pyStrip d.name = "" then .error "Marker name cannot be empty"
  else if d.timestamp_ms < 0 then .error "Marker timestamp cannot be negative"
  else .ok { name := d.name, timestamp_ms := d.timestamp_ms }

/-- User-configurable settings (models `Settings` in `models/show.py`). -/
structure Settings where
  skip_increment_seconds : Int
  marker_nudge_increment_ms : Int
deriving DecidableEq, Repr

/-- The dataclass field defaults of `Settings`. -/
def defaultSettings : Settings :=
  { skip_increment_seconds := 5, marker_nudge_increment_ms := 100 }

/-- JSON document for settings; both keys are read with `dict.get` and a
default, so each field is optional. -/
structure SettingsDoc where
  skip_increment_seconds : Option Int
  marker_nudge_increment_ms : Option Int
deriving DecidableEq, Repr

/-- Models `Settings.to_dict`. -/
def Settings.to_dict (s : Settings) : SettingsDoc :=
  { skip_increment_seconds := some s.skip_increment_seconds,
    marker_nudge_increment_ms := some s.marker_nudge_increment_ms }

/-- Models `Settings.from_dict` composed with the `__post_init__`
validation (both values must be strictly positive). -/
def Settings.from_dict (d : SettingsDoc) : Except String Settings :=
  let skip := d.skip_increment_seconds.getD 5
  let nudge := d.marker_nudge_increment_ms.getD 100
  if skip ≤ 0 then .error "Skip increment must be positive"
  else if nudge ≤ 0 then .error "Marker nudge increment must be positive"
  else .ok { skip_increment_seconds := skip, marker_nudge_increment_ms := nudge }

/-- An audio track (models `Track` in `models/track.py`).  `audio_path`
is a filesystem path, modelled as a list of components. -/
structure Track where
  filename : String
  audio_path : List String
  markers : List Marker
  duration_ms : Option Int
deriving DecidableEq, Repr

/-- JSON document for a track, as produced by `Track.to_dict`.
`markers` is read with `dict.get("markers", [])`, hence optional;
`duration_ms` is emitted only when present, hence optional. -/
structure TrackDoc where
  filename : String
  markers : Option (List MarkerDoc)
  duration_ms : Option Int
deriving DecidableEq, Repr

/-- Models `Track.to_dict` (the `duration_ms` key is included exactly
when the field is not `None`). -/
def Track.to_dict (t : Track) : TrackDoc :=
  { filename := t.filename,
    markers := some (t.markers.map Marker.to_dict),
    duration_ms := t.duration_ms }

/-- Maps a fallible decoder over a list, failing on the first error
(models a Python list comprehension over a decoder that may raise). -/
def mapExcept (f : α → Except String β) : List α → Except String (List β)
  | [] => .ok []
  | a :: as =>
    match f a with
    | .error e => .error e
    | .ok b =>
      match mapExcept f as with
      | .error e => .error e
      | .ok bs => .ok (b :: bs)

/-- Models `Track.from_dict` composed with the `__post_init__` validation
(empty/whitespace-only filename raises `ValueError`); the markers are
decoded first, as in the source. -/
def Track.from_dict (d : TrackDoc) (audio_path : List String) : Except String Track :=
  match mapExcept Marker.from_dict (d.markers.getD []) with
  | .error e => .error e
  | .ok markers =>
    if d.filename = "" ∨ pyStrip d.filename = "" then .error "Track filename cannot be empty"
    else .ok { filename := d.filename, audio_path := audio_path,
               markers := markers, duration_ms := d.duration_ms }

/-- A show (models `Show` in `models/show.py`). -/
structure Show where
  name : String
  tracks : List Track
  settings : Settings
deriving DecidableEq, Repr

/-- JSON document for a show, as produced by `Show.to_dict`.  `settings`
and `tracks` are read with `dict.get` and a default, hence optional. -/
structure ShowDoc where
  show_name : String
  settings : Option SettingsDoc
  tracks : Option (List TrackDoc)
deriving DecidableEq, Repr

/-- Models `Show.to_dict`. -/
def Show.to_dict (s : Show) : ShowDoc :=
  { show_name := s.name,
    settings := some s.settings.to_dict,
    tracks := some (s.tracks.map Track.to_dict) }

/-- The empty JSON object passed to `Settings.from_dict` when the
`settings` key is absent. -/
def emptySettingsDoc : SettingsDoc :=
  { skip_increment_seconds := none, marker_nudge_increment_ms := none }

/-- Models `Show.from_dict` composed with the `__post_init__` validation
(empty/whitespace-only show name raises `ValueError`).  Each track's
`audio_path` is `audio_base_path / track_data["filename"]`. -/
def Show.from_dict (d : ShowDoc) (audio_base_path : List String) : Except String Show :=
  match Settings.from_dict (d.settings.getD emptySettingsDoc) with
  | .error e => .error e
  | .ok settings =>
    match mapExcept (fun td => Track.from_dict td (audio_base_path ++ [td.filename]))
        (d.tracks.getD []) with
    | .error e => .error e
    | .ok tracks =>
      if d.show_name = "" ∨ pyStrip d.show_name = "" then .error "Show name cannot be empty"
      else .ok { name := d.show_name, tracks := tracks, settings := settings }

/-- The `__post_init__` invariant of a constructed `Marker`. -/
def Marker.Valid (m : Marker) : Prop :=
  pyStrip m.name ≠ "" ∧ 0 ≤ m.timestamp_ms

/-- The `__post_init__` invariant of a constructed `Settings`. -/
def Settings.Valid (s : Settings) : Prop :=
  0 < s.skip_increment_seconds ∧ 0 < s.marker_nudge_increment_ms

/-- The `__post_init__` invariant of a constructed `Track`, together with
the invariants of its markers. -/
def Track.Valid (t : Track) : Prop :=
  pyStrip t.filename ≠ "" ∧ ∀ m ∈ t.markers, m.Valid

/-- The `__post_init__` invariant of a constructed `Show`, together with
the invariants of its parts. -/
def Show.Valid (s : Show) : Prop :=
  pyStrip s.name ≠ "" ∧ s.settings.Valid ∧ ∀ t ∈ s.tracks, t.Valid

instance : DecidablePred Marker.Valid := fun _ => by unfold Marker.Valid; infer_instance
instance : DecidablePred Settings.Valid := fun _ => by unfold Settings.Valid; infer_instance
instance : DecidablePred Track.Valid := fun _ => by unfold Track.Valid; infer_instance
instance : DecidablePred Show.Valid := fun _ => by unfold Show.Valid; infer_instance

/-! ### Round-trip lemmas for the codec -/

lemma name_cond_false {n : String} (h : pyStrip n ≠ "") : ¬(n = "" ∨ pyStrip n = "") := by
  rintro (rfl | h2)
  · exact h rfl
  · exact h h2

lemma marker_from_to_dict (m : Marker) (h : m.Valid) :
    Marker.from_dict (Marker.to_dict m) = .ok m := by
  obtain ⟨h1, h2⟩ := h
  simp only [Marker.from_dict, Marker.to_dict]
  rw [if_neg (name_cond_false h1), if_neg (by omega)]

lemma mapExcept_map_ok {f : α → Except String β} {g : α → β} (xs : List α)
    (h : ∀ x ∈ xs, f x = .ok (g x)) : mapExcept f xs = .ok (xs.map g) := by
  induction xs with
  | nil => rfl
  | cons a as ih =>
    simp only [mapExcept, h a (List.mem_cons_self a as),
      ih (fun x hx => h x (List.mem_cons_of_mem a hx)), List.map_cons]

lemma mapExcept_ok_mem {f : α → Except String β} {xs : List α} {ys : List β}
    (h : mapExcept f xs = .ok ys) : ∀ y ∈ ys, ∃ x ∈ xs, f x = .ok y := by
  induction xs generalizing ys with
  | nil =>
    simp only [mapExcept] at h
    cases h
    intro y hy; cases hy
  | cons a as ih =>
    simp only [mapExcept] at h
    cases hfa : f a with
    | error e => rw [hfa] at h; cases h
    | ok b =>
      rw [hfa] at h
      cases hrec : mapExcept f as with
      | error e => rw [hrec] at h; cases h
      | ok bs =>
        rw [hrec] at h
        cases h
        intro y hy
        rcases List.mem_cons.mp hy with rfl | hy'
        · exact ⟨a, List.mem_cons_self a as, hfa⟩
        · obtain ⟨x, hx, hfx⟩ := ih hrec y hy'
          exact ⟨x, List.mem_cons_of_mem a hx, hfx⟩

lemma markers_decode (ms : List Marker) (h : ∀ m ∈ ms, m.Valid) :
    mapExcept Marker.from_dict (ms.map Marker.to_dict) = .ok ms := by
  induction ms with
  | nil => rfl
  | cons m ms ih =>
    simp only [List.map_cons, mapExcept,
      marker_from_to_dict m (h m (List.mem_cons_self m ms)),
      ih (fun x hx => h x (List.mem_cons_of_mem m hx))]

lemma Track.to_dict_filename (t : Track) : (Track.to_dict t).filename = t.filename := rfl

lemma track_from_to_dict (t : Track) (p : List String) (h : t.Valid) :
    Track.from_dict (Track.to_dict t) p = .ok { t with audio_path := p } := by
  obtain ⟨h1, h2⟩ := h
  simp only [Track.from_dict, Track.to_dict, Option.getD_some, markers_decode t.markers h2]
  rw [if_neg (name_cond_false h1)]

lemma settings_from_to_dict (s : Settings) (h : s.Valid) :
    Settings.from_dict (Settings.to_dict s) = .ok s := by
  obtain ⟨h1, h2⟩ := h
  simp only [Settings.from_dict, Settings.to_dict, Option.getD_some]
  rw [if_neg (by omega), if_neg (by omega)]

lemma tracks_decode (ts : List Track) (base : List String) (h : ∀ t ∈ ts, t.Valid) :
    mapExcept (fun td => Track.from_dict td (base ++ [td.filename])) (ts.map Track.to_dict)
      = .ok (ts.map (fun t => { t with audio_path := base ++ [t.filename] })) := by
  induction ts with
  | nil => rfl
  | cons t ts ih =>
    simp only [List.map_cons, mapExcept, Track.to_dict_filename,
      track_from_to_dict t (base ++ [t.filename]) (h t (List.mem_cons_self t ts)),
      ih (fun x hx => h x (List.mem_cons_of_mem t hx))]

/-- C1 helper: decoding an encoded show succeeds and rebuilds the show
with each track's `audio_path` re-derived from the base path. -/
lemma show_from_to_dict (s : Show) (base : List String) (h : s.Valid) :
    Show.from_dict (Show.to_dict s) base =
      .ok { name := s.name,
            tracks := s.tracks.map (fun t => { t with audio_path := base ++ [t.filename] }),
            settings := s.settings } := by
  obtain ⟨h1, h2, h3⟩ := h
  simp only [Show.from_dict, Show.to_dict, Option.getD_some,
    settings_from_to_dict s.settings h2, tracks_decode s.tracks base h3]
  rw [if_neg (name_cond_false h1)]

/-- C1: for every validly constructed `Show` and any asset base path,
`Show.from_dict (Show.to_dict s) base` succeeds and returns a show that is
structurally equal to `s` in name, settings, the ordered track filenames,
and each track's ordered list of marker (name, timestamp) pairs. -/
theorem show_roundtrip (s : Show) (base : List String) (h : s.Valid) :
    ∃ s', Show.from_dict (Show.to_dict s) base = .ok s' ∧
      s'.name = s.name ∧
      s'.settings = s.settings ∧
      s'.tracks.map Track.filename = s.tracks.map Track.filename ∧
      s'.tracks.map (fun t => t.markers.map (fun m => (m.name, m.timestamp_ms)))
        = s.tracks.map (fun t => t.markers.map (fun m => (m.name, m.timestamp_ms))) := by
  refine ⟨_, show_from_to_dict s base h, rfl, rfl, ?_, ?_⟩
  · rw [List.map_map]; rfl
  · rw [List.map_map]; rfl

/-- Concrete show used by the C1 witness. -/
def c1show : Show :=
  { name := "Spring Revue",
    tracks := [{ filename := "song.mp3", audio_path := ["old", "song.mp3"],
                 markers := [{ name := "verse", timestamp_ms := 100 }],
                 duration_ms := some 5000 },
               { filename := "b.wav", audio_path := [],
                 markers := [], duration_ms := none }],
    settings := { skip_increment_seconds := 5, marker_nudge_increment_ms := 100 } }

/-- The decode of the C1 witness's encoded show, with asset paths rebuilt
under the base path. -/
def c1decoded : Show :=
  { name := "Spring Revue",
    tracks := [{ filename := "song.mp3", audio_path := ["base", "audio", "song.mp3"],
                 markers := [{ name := "verse", timestamp_ms := 100 }],
                 duration_ms := some 5000 },
               { filename := "b.wav", audio_path := ["base", "audio", "b.wav"],
                 markers := [], duration_ms := none }],
    settings := { skip_increment_seconds := 5, marker_nudge_increment_ms := 100 } }

/-- Witness for C1 at a concrete two-track show. -/
theorem show_roundtrip_witness :
    c1show.Valid ∧
    Show.from_dict (Show.to_dict c1show) ["base", "audio"] = .ok c1decoded ∧
    c1decoded.name = c1show.name ∧
    c1decoded.settings = c1show.settings ∧
    c1decoded.tracks.map Track.filename = c1show.tracks.map Track.filename ∧
    c1decoded.tracks.map (fun t => t.markers.map (fun m => (m.name, m.timestamp_ms)))
      = c1show.tracks.map (fun t => t.markers.map (fun m => (m.name, m.timestamp_ms))) := by
  have hv : c1show.Valid := by decide
  obtain ⟨s', h1, h2, h3, h4, h5⟩ := show_roundtrip c1show ["base", "audio"] hv
  have he : Show.from_dict (Show.to_dict c1show) ["base", "audio"] = .ok c1decoded := by
    unfold c1show c1decoded; rfl
  rw [he] at h1
  cases h1
  exact ⟨hv, he, h2, h3, h4, h5⟩

/-! ### C8: decoding joins the asset base path with the stored filename -/

lemma track_from_dict_ok_inv {d : TrackDoc} {p : List String} {t : Track}
    (h : Track.from_dict d p = .ok t) :
    t.audio_path = p ∧ t.filename = d.filename ∧ t.duration_ms = d.duration_ms := by
  unfold Track.from_dict at h
  cases hm : mapExcept Marker.from_dict (d.markers.getD []) with
  | error e => rw [hm] at h; cases h
  | ok markers =>
    rw [hm] at h
    dsimp only at h
    split at h
    · cases h
    · cases h
      exact ⟨rfl, rfl, rfl⟩

lemma show_from_dict_ok_inv {d : ShowDoc} {base : List String} {s : Show}
    (h : Show.from_dict d base = .ok s) :
    ∃ tds, mapExcept (fun td => Track.from_dict td (base ++ [td.filename])) tds
        = .ok s.tracks := by
  unfold Show.from_dict at h
  cases hs : Settings.from_dict (d.settings.getD emptySettingsDoc) with
  | error e => rw [hs] at h; cases h
  | ok settings =>
    rw [hs] at h
    cases ht : mapExcept (fun td => Track.from_dict td (base ++ [td.filename]))
        (d.tracks.getD []) with
    | error e => rw [ht] at h; cases h
    | ok tracks =>
      rw [ht] at h
      dsimp only at h
      split at h
      · cases h
      · cases h
        exact ⟨d.tracks.getD [], ht⟩

/-- C8: every track of a decoded show has `audio_path` equal to the supplied
asset base path joined with that track's stored filename; and the encoded
document stores, per track, only the bare `filename` of the in-memory track
(the document shape `TrackDoc` has no path field at all). -/
theorem decode_joins_base_path :
    (∀ (d : ShowDoc) (base : List String) (s : Show), Show.from_dict d base = .ok s →
       ∀ t ∈ s.tracks, t.audio_path = base ++ [t.filename])
    ∧ (∀ s : Show, ((Show.to_dict s).tracks.getD []).map TrackDoc.filename
        = s.tracks.map Track.filename) := by
  constructor
  · intro d base s h t ht
    obtain ⟨tds, htds⟩ := show_from_dict_ok_inv h
    obtain ⟨td, _, hok⟩ := mapExcept_ok_mem htds t ht
    obtain ⟨hpath, hname, _⟩ := track_from_dict_ok_inv hok
    rw [hpath, hname]
  · intro s
    simp only [Show.to_dict, Option.getD_some, List.map_map]
    rfl

/-- Concrete document used by the C8 witness. -/
def c8doc : ShowDoc :=
  { show_name := "S",
    settings := none,
    tracks := some [{ filename := "a.mp3", markers := some [], duration_ms := none }] }

/-- Concrete decoded show used by the C8 witness. -/
def c8show : Show :=
  { name := "S",
    tracks := [{ filename := "a.mp3", audio_path := ["b", "audio", "a.mp3"],
                 markers := [], duration_ms := none }],
    settings := defaultSettings }

/-- Concrete track of `c8show` used by the C8 witness. -/
def c8track : Track :=
  { filename := "a.mp3", audio_path := ["b", "audio", "a.mp3"],
    markers := [], duration_ms := none }

/-- Witness for C8 at a concrete decodable document. -/
theorem decode_joins_base_path_witness :
    c8track.audio_path = ["b", "audio"] ++ [c8track.filename]
    ∧ ((Show.to_dict c8show).tracks.getD []).map TrackDoc.filename
        = c8show.tracks.map Track.filename :=
  ⟨decode_joins_base_path.1 c8doc ["b", "audio"] c8show (by unfold c8doc c8show; rfl) c8track (by decide),
   decode_joins_base_path.2 c8show⟩

/-! ### Path resolution (`persistence/file_manager.py`) and the show
repository (`persistence/show_repository.py`)

The repository reads and writes JSON documents; since `json.dump` /
`json.load` are inverse on the documents the codec produces, the on-disk
metadata files are modelled at document granularity by `DocStore`. -/

/-- Models `FileManager.get_shows_directory`. -/
def showsDirectory (base : List String) : List String := base ++ ["shows"]

/-- Models `FileManager.get_show_directory`. -/
def showDirectory (base : List String) (name : String) : List String :=
  showsDirectory base ++ [name]

/-- Models `FileManager.get_show_audio_directory`. -/
def showAudioDirectory (base : List String) (name : String) : List String :=
  showDirectory base name ++ ["audio"]

/-- Models `FileManager.get_show_file_path` (the file is named after the
show). -/
def showFilePath (base : List String) (name : String) : List String :=
  showDirectory base name ++ [name ++ ".json"]

/-- On-disk state seen by the show repository: JSON documents keyed by
path, plus the set of created directories. -/
structure DocStore where
  docs : List (List String × ShowDoc)
  dirs : List (List String)
deriving DecidableEq, Repr

/-- Reads the JSON document at a path, if present. -/
def DocStore.readDoc (st : DocStore) (p : List String) : Option ShowDoc :=
  (st.docs.find? (fun f => f.1 == p)).map (fun f => f.2)

/-- Writes (whole-file overwrite) the JSON document at a path. -/
def DocStore.writeDoc (st : DocStore) (p : List String) (d : ShowDoc) : DocStore :=
  { st with docs := (p, d) :: st.docs.filter (fun f => !(f.1 == p)) }

/-- Creates a directory (no-op if it already exists, as with
`mkdir(parents=True, exist_ok=True)`). -/
def DocStore.addDir (st : DocStore) (p : List String) : DocStore :=
  if st.dirs.contains p then st else { st with dirs := p :: st.dirs }

/-- Models `FileManager.create_show_directories`. -/
def createShowDirs (base : List String) (st : DocStore) (name : String) : DocStore :=
  (st.addDir (showDirectory base name)).addDir (showAudioDirectory base name)

/-- Models `ShowRepository.save`: ensure directories, encode, write the
document at the show's metadata path. -/
def ShowRepository.save (base : List String) (st : DocStore) (s : Show) : DocStore :=
  (createShowDirs base st s.name).writeDoc (showFilePath base s.name) (Show.to_dict s)

/-- Models `ShowRepository.load`: fail if the metadata file is absent,
else decode with the show's audio directory as asset base path. -/
def ShowRepository.load (base : List String) (st : DocStore) (name : String) :
    Except String Show :=
  match st.readDoc (showFilePath base name) with
  | none => .error "Show file not found"
  | some d => Show.from_dict d (showAudioDirectory base name)

lemma DocStore.readDoc_writeDoc (st : DocStore) (p : List String) (d : ShowDoc) :
    (st.writeDoc p d).readDoc p = some d := by
  simp [DocStore.readDoc, DocStore.writeDoc]

lemma Show.from_dict_ok_settings {d : ShowDoc} {base : List String} {s : Show}
    (h : Show.from_dict d base = .ok s) :
    Settings.from_dict (d.settings.getD emptySettingsDoc) = .ok s.settings := by
  unfold Show.from_dict at h
  cases hs : Settings.from_dict (d.settings.getD emptySettingsDoc) with
  | error e => rw [hs] at h; cases h
  | ok settings =>
    rw [hs] at h
    cases ht : mapExcept (fun td => Track.from_dict td (base ++ [td.filename]))
        (d.tracks.getD []) with
    | error e => rw [ht] at h; cases h
    | ok tracks =>
      rw [ht] at h
      dsimp only at h
      split at h
      · cases h
      · cases h; rfl

/-- C9: a document without a `settings` key decodes to the default
settings (skip 5 s, nudge 100 ms); a track document without a
`duration_ms` key decodes with no duration; and saving a show with zero
tracks and default settings and loading it back by name returns a show
with an empty track list and those default settings. -/
theorem decode_defaults_and_save_load :
    (∀ (d : ShowDoc) (base : List String) (s : Show), d.settings = none →
       Show.from_dict d base = .ok s → s.settings = defaultSettings)
    ∧ (∀ (td : TrackDoc) (p : List String) (t : Track), td.duration_ms = none →
       Track.from_dict td p = .ok t → t.duration_ms = none)
    ∧ (∀ (base : List String) (st : DocStore) (name : String), pyStrip name ≠ "" →
       ShowRepository.load base
           (ShowRepository.save base st { name := name, tracks := [], settings := defaultSettings })
           name
         = .ok { name := name, tracks := [], settings := defaultSettings }) := by
  refine ⟨?_, ?_, ?_⟩
  · intro d base s h1 h2
    have h3 := Show.from_dict_ok_settings h2
    rw [h1, Option.getD_none] at h3
    have h4 : Settings.from_dict emptySettingsDoc = .ok defaultSettings := rfl
    rw [h4] at h3
    injection h3 with h5
    exact h5.symm
  · intro td p t h1 h2
    have h3 := (track_from_dict_ok_inv h2).2.2
    rw [h3, h1]
  · intro base st name hn
    have hv : Show.Valid { name := name, tracks := [], settings := defaultSettings } := by
      refine ⟨hn, show Settings.Valid defaultSettings by decide, ?_⟩
      intro t ht
      cases ht
    simp only [ShowRepository.save, ShowRepository.load, DocStore.readDoc_writeDoc]
    rw [show_from_to_dict _ _ hv]
    rfl

/-- Witness for C9 at concrete documents and a concrete empty store. -/
theorem decode_defaults_and_save_load_witness :
    ({ name := "Spring Revue", tracks := [], settings := defaultSettings } : Show).settings
        = defaultSettings
    ∧ ({ filename := "a.mp3", audio_path := [], markers := [],
         duration_ms := none } : Track).duration_ms = none
    ∧ ShowRepository.load []
        (ShowRepository.save [] { docs := [], dirs := [] }
          { name := "Spring Revue", tracks := [], settings := defaultSettings })
        "Spring Revue"
      = .ok { name := "Spring Revue", tracks := [], settings := defaultSettings } :=
  ⟨decode_defaults_and_save_load.1
      { show_name := "Spring Revue", settings := none, tracks := some [] } []
      { name := "Spring Revue", tracks := [], settings := defaultSettings } rfl (by rfl),
   decode_defaults_and_save_load.2.1
      { filename := "a.mp3", markers := some [], duration_ms := none } []
      { filename := "a.mp3", audio_path := [], markers := [], duration_ms := none } rfl (by rfl),
   decode_defaults_and_save_load.2.2 [] { docs := [], dirs := [] } "Spring Revue" (by decide)⟩

/-! ### Track mutation (`Track.add_marker` in `models/track.py`)

The mutating method is embedded in state-passing style: it returns the
track after the call together with the call's outcome, so that the
pre-raise state is visible on the error path. -/

/-- The comparison key used by `self.markers.sort(key=lambda m: m.timestamp_ms)`. -/
def Marker.le (a b : Marker) : Prop := a.timestamp_ms ≤ b.timestamp_ms

instance : DecidableRel Marker.le := fun a b => by unfold Marker.le; infer_instance

instance : IsTotal Marker Marker.le :=
  ⟨fun a b => le_total a.timestamp_ms b.timestamp_ms⟩

instance : IsTrans Marker Marker.le :=
  ⟨fun _ _ _ hab hbc => le_trans hab hbc⟩

/-- Models `Track.has_marker` (exact, case-sensitive name match). -/
def Track.hasMarker (t : Track) (name : String) : Bool :=
  t.markers.any (fun m => m.name == name)

/-- Models `Track.add_marker`: raise if a marker with the same name exists
(leaving the track untouched), otherwise append and stable-sort by
timestamp (Python's `list.sort` is stable; `List.insertionSort` is the
corresponding stable sort). -/
def Track.addMarker (t : Track) (m : Marker) : Track × Except String Unit :=
  if t.hasMarker m.name then
    (t, .error ("Marker with name " ++ m.name ++ " already exists"))
  else
    ({ t with markers := List.insertionSort Marker.le (t.markers ++ [m]) }, .ok ())

/-- Runs a sequence of `add_marker` calls, returning the intermediate
track states when every call succeeds and the first error otherwise. -/
def Track.runAddMarkers (t : Track) : List Marker → Except String (List Track)
  | [] => .ok []
  | m :: ms =>
    match t.addMarker m with
    | (t', .ok _) =>
      match t'.runAddMarkers ms with
      | .error e => .error e
      | .ok rest => .ok (t' :: rest)
    | (_, .error e) => .error e

lemma Track.addMarker_ok_sorted {t t' : Track} {m : Marker} {r : Except String Unit}
    (h : t.addMarker m = (t', r)) (hok : r = .ok ()) :
    List.Pairwise (fun a b => a.timestamp_ms ≤ b.timestamp_ms) t'.markers := by
  unfold Track.addMarker at h
  split at h
  · cases h; cases hok
  · cases h
    exact List.sorted_insertionSort Marker.le (t.markers ++ [m])

/-- C3: along any sequence of successful `add_marker` calls starting from
a track with no markers, every intermediate marker list is sorted
ascending by `timestamp_ms`. -/
theorem addMarker_seq_sorted (t0 : Track) (ms : List Marker) (trace : List Track)
    (hempty : t0.markers = []) (hrun : t0.runAddMarkers ms = .ok trace) :
    ∀ t ∈ trace, List.Pairwise (fun a b => a.timestamp_ms ≤ b.timestamp_ms) t.markers := by
  clear hempty
  induction ms generalizing t0 trace with
  | nil =>
    unfold Track.runAddMarkers at hrun
    cases hrun
    intro t ht
    cases ht
  | cons m ms ih =>
    unfold Track.runAddMarkers at hrun
    cases hadd : t0.addMarker m with
    | mk t' r =>
      rw [hadd] at hrun
      cases r with
      | error e => dsimp only at hrun; cases hrun
      | ok u =>
        cases u
        dsimp only at hrun
        cases hrest : t'.runAddMarkers ms with
        | error e => rw [hrest] at hrun; cases hrun
        | ok rest =>
          rw [hrest] at hrun
          cases hrun
          intro t ht
          rcases List.mem_cons.mp ht with rfl | ht'
          · exact Track.addMarker_ok_sorted hadd rfl
          · exact ih t' rest hrest t ht'

/-- Empty track used by the C3 witness. -/
def c3track : Track :=
  { filename := "a.mp3", audio_path := [], markers := [], duration_ms := none }

/-- Marker list used by the C3 witness (inserted out of timestamp order). -/
def c3adds : List Marker :=
  [{ name := "m2", timestamp_ms := 500 }, { name := "m1", timestamp_ms := 100 },
   { name := "m3", timestamp_ms := 300 }]

/-- The intermediate states of the C3 witness run. -/
def c3trace : List Track := (c3track.runAddMarkers c3adds).toOption.getD []

/-- Witness for C3: the final state of a concrete three-call run is sorted. -/
theorem addMarker_seq_sorted_witness :
    List.Pairwise (fun a b => a.timestamp_ms ≤ b.timestamp_ms)
      ((c3trace.getD 2 c3track).markers) :=
  addMarker_seq_sorted c3track c3adds c3trace (by decide) (by rfl)
    (c3trace.getD 2 c3track) (by decide)

/-- C4: adding a marker whose name exactly matches an existing marker's
name fails with an error and returns the track unchanged. -/
theorem addMarker_duplicate_name_rejected (t : Track) (m : Marker)
    (h : t.hasMarker m.name = true) :
    t.addMarker m = (t, .error ("Marker with name " ++ m.name ++ " already exists")) := by
  unfold Track.addMarker
  rw [if_pos h]

/-- Witness for C4: a duplicate name (same name, different timestamp) is
rejected and the marker list is untouched. -/
theorem addMarker_duplicate_name_rejected_witness :
    ({ filename := "a.mp3", audio_path := [],
       markers := [{ name := "verse", timestamp_ms := 100 }],
       duration_ms := none } : Track).addMarker { name := "verse", timestamp_ms := 999 }
      = ({ filename := "a.mp3", audio_path := [],
           markers := [{ name := "verse", timestamp_ms := 100 }],
           duration_ms := none },
         .error ("Marker with name " ++ "verse" ++ " already exists")) :=
  addMarker_duplicate_name_rejected
    { filename := "a.mp3", audio_path := [],
      markers := [{ name := "verse", timestamp_ms := 100 }], duration_ms := none }
    { name := "verse", timestamp_ms := 999 } (by decide)

/-! ### Byte-level filesystem model

`audio/audio_file_manager.py` and parts of `persistence/file_manager.py`
operate on file bytes and directories, so they are modelled over `FS`:
regular files keyed by path with byte-list contents, plus the set of
created directories.  `Path.exists()` is true for a file or a directory
at the path.  Opening or statting a path that is not a regular file is
surfaced as an `IOFailure` error in the model. -/

/-- Filesystem state: regular files (path, bytes) and directories. -/
structure FS where
  files : List (List String × List Nat)
  dirs : List (List String)
deriving DecidableEq, Repr

/-- Contents of the regular file at a path, if one is present. -/
def FS.read (fs : FS) (p : List String) : Option (List Nat) :=
  (fs.files.find? (fun f => f.1 == p)).map (fun f => f.2)

/-- Writes (creating or overwriting) the regular file at a path. -/
def FS.write (fs : FS) (p : List String) (c : List Nat) : FS :=
  { fs with files := (p, c) :: fs.files.filter (fun f => !(f.1 == p)) }

/-- Models `Path.exists()`: a regular file or a directory is at the path. -/
def FS.pathExists (fs : FS) (p : List String) : Bool :=
  fs.files.any (fun f => f.1 == p) || fs.dirs.contains p

/-- Creates one directory, a no-op when already present (`exist_ok=True`). -/
def FS.mkdir (fs : FS) (p : List String) : FS :=
  if fs.dirs.contains p then fs else { fs with dirs := p :: fs.dirs }

/-- The nonempty prefixes of a path, shortest first. -/
def pathPrefixes (p : List String) : List (List String) :=
  (List.range p.length).map (fun i => p.take (i + 1))

/-- Models `mkdir(parents=True, exist_ok=True)`: creates the directory
and all its ancestors. -/
def FS.mkdirP (fs : FS) (p : List String) : FS :=
  (pathPrefixes p).foldl FS.mkdir fs

/-! ### `AudioFileManager` (`audio/audio_file_manager.py`) -/

/-- The fixed allow-list `AudioFileManager.SUPPORTED_FORMATS`. -/
def SUPPORTED_FORMATS : List String :=
  [".mp3", ".wav", ".m4a", ".aac", ".flac", ".ogg", ".opus", ".wma", ".aiff", ".aif"]

/-- Index of the last '.' in a character list, if any. -/
def lastDotIdx (cs : List Char) : Option Nat :=
  match cs.reverse.findIdx? (fun c => c == '.') with
  | some j => some (cs.length - 1 - j)
  | none => none

/-- Models `pathlib`'s stem/suffix split of a file name: the suffix is
`name[i:]` for the last dot index `i` when `0 < i < len(name) - 1`,
otherwise empty (so dotless names, leading-dot names and trailing-dot
names have no suffix). -/
def splitExt (name : String) : String × String :=
  let cs := name.data
  match lastDotIdx cs with
  | some i =>
    if 0 < i ∧ i < cs.length - 1 then (String.mk (cs.take i), String.mk (cs.drop i))
    else (name, "")
  | none => (name, "")

/-- Models `Path.name` for our path representation: the final component. -/
def pathName (p : List String) : String := p.getLast?.getD ""

/-- Models Python's `str.lower()` on extensions: character-wise
lower-casing. -/
def pyLower (s : String) : String := String.mk (s.data.map Char.toLower)

/-- Models `AudioFileManager.is_supported_format`: the lower-cased suffix
must be in the allow-list. -/
def isSupportedFormat (name : String) : Bool :=
  SUPPORTED_FORMATS.contains (pyLower (splitExt name).2)

/-- One round of the chunked comparison loop of
`AudioFileManager._files_are_identical`, with explicit fuel (the Python
loop consumes 8192-byte chunks; the fuel is an upper bound on the number
of rounds, never exhausted from the entry point). -/
def chunkCmp : Nat → List Nat → List Nat → Bool
  | 0, _, _ => false
  | fuel + 1, c1, c2 =>
    let chunk1 := c1.take 8192
    let chunk2 := c2.take 8192
    if chunk1 ≠ chunk2 then false
    else if chunk1.isEmpty then true
    else chunkCmp fuel (c1.drop 8192) (c2.drop 8192)

/-- Models `AudioFileManager._files_are_identical`: compare sizes first,
then chunked byte-for-byte contents. -/
def filesAreIdentical (c1 c2 : List Nat) : Bool :=
  if c1.length ≠ c2.length then false
  else chunkCmp (c1.length + 1) c1 c2

/-- The candidate name probed at a given counter by
`AudioFileManager._get_unique_filename`. -/
def candName (stem sfx : String) (counter : Nat) : String :=
  stem ++ "_" ++ toString counter ++ sfx

/-- The probe loop of `_get_unique_filename`: try `stem_counter.sfx`,
return it when unused; past 10000 probes raise (`ResourceExhausted` in the
spec's taxonomy).  Fuel is structural; the entry point supplies enough
fuel that the `0` branch is unreachable. -/
def uniqueNameGo (fs : FS) (dir : List String) (stem sfx : String) :
    Nat → Nat → Except String (List String)
  | 0, _ => .error "unreachable: fuel exhausted"
  | fuel + 1, counter =>
    let newPath := dir ++ [candName stem sfx counter]
    if fs.pathExists newPath = false then .ok newPath
    else if 10000 < counter + 1 then
      .error ("Could not generate unique filename for: " ++ (stem ++ sfx))
    else uniqueNameGo fs dir stem sfx fuel (counter + 1)

/-- Models `AudioFileManager._get_unique_filename`. -/
def getUniqueFilename (fs : FS) (dir : List String) (filename : String) :
    Except String (List String) :=
  let st := splitExt filename
  uniqueNameGo fs dir st.1 st.2 10000 1

/-- Models `AudioFileManager.copy_audio_file` as a state transformer over
`FS`.  Returns the new filesystem together with the destination path or
the raised error. -/
def copyAudioFile (base : List String) (fs : FS) (src : List String)
    (showName : String) : FS × Except String (List String) :=
  if fs.pathExists src = false then (fs, .error "Source audio file not found")
  else if isSupportedFormat (pathName src) = false then
    (fs, .error ("Unsupported audio format: " ++ (splitExt (pathName src)).2))
  else
    let audioDir := showAudioDirectory base showName
    let fs1 := fs.mkdirP audioDir
    let dest0 := audioDir ++ [pathName src]
    match fs1.read src with
    | none => (fs1, .error "IOFailure")
    | some srcC =>
      if fs1.pathExists dest0 then
        match fs1.read dest0 with
        | none => (fs1, .error "IOFailure")
        | some dstC =>
          if filesAreIdentical srcC dstC then (fs1, .ok dest0)
          else
            match getUniqueFilename fs1 audioDir (pathName src) with
            | .error e => (fs1, .error e)
            | .ok dest =>
              let fs2 := fs1.write dest srcC
              if fs2.pathExists dest = false then
                (fs2, .error "Failed to copy audio file")
              else (fs2, .ok dest)
      else
        let fs2 := fs1.write dest0 srcC
        if fs2.pathExists dest0 = false then
          (fs2, .error "Failed to copy audio file")
        else (fs2, .ok dest0)

/-! ### `FileManager.show_exists` / `FileManager.delete_show` -/

/-- Models `FileManager.show_exists`: tests `Path.exists()` of the show's
metadata file path. -/
def showExists (base : List String) (fs : FS) (name : String) : Bool :=
  fs.pathExists (showFilePath base name)

/-- Removes everything at or under a directory (models `shutil.rmtree`). -/
def removeSubtree (fs : FS) (d : List String) : FS :=
  { files := fs.files.filter (fun f => !(d.isPrefixOf f.1)),
    dirs := fs.dirs.filter (fun p => !(d.isPrefixOf p)) }

/-- Models `FileManager.delete_show`: tests `Path.exists()` of the show's
directory and removes the whole subtree when present. -/
def deleteShow (base : List String) (fs : FS) (name : String) : FS × Bool :=
  let d := showDirectory base name
  if fs.pathExists d then (removeSubtree fs d, true) else (fs, false)

/-! ### C10: `show_exists` and `delete_show` test different paths -/

/-- C10: `show_exists` is exactly presence of the metadata path
`shows/name/name.json`, `delete_show` returns true (removing the subtree)
exactly on presence of the directory `shows/name`, and on a state with
the show directory but no metadata file the two disagree. -/
theorem showExists_deleteShow_disagree :
    (∀ (base : List String) (fs : FS) (name : String),
       showExists base fs name = fs.pathExists (showFilePath base name))
    ∧ (∀ (base : List String) (fs : FS) (name : String),
       (deleteShow base fs name).2 = fs.pathExists (showDirectory base name)
       ∧ (deleteShow base fs name).1
           = if fs.pathExists (showDirectory base name)
             then removeSubtree fs (showDirectory base name) else fs)
    ∧ (showExists [] { files := [], dirs := [["shows", "X"]] } "X" = false
       ∧ (deleteShow [] { files := [], dirs := [["shows", "X"]] } "X").2 = true) := by
  refine ⟨fun _ _ _ => rfl, ?_, by decide, by decide⟩
  intro base fs name
  cases h : fs.pathExists (showDirectory base name) <;> simp [deleteShow, h]

/-! ### C7: unsupported-format rejection -/

/-- C7: when the source's extension is not allow-listed, `copy_audio_file`
fails with the unsupported-format error and the filesystem is unchanged
(no file written); the extension check is case-insensitive, so
allow-listed extensions are accepted in any letter case and a `.txt`
source is rejected. -/
theorem unsupported_format_rejected :
    (∀ (base : List String) (fs : FS) (src : List String) (showName : String),
       fs.pathExists src = true → isSupportedFormat (pathName src) = false →
       copyAudioFile base fs src showName
         = (fs, .error ("Unsupported audio format: " ++ (splitExt (pathName src)).2)))
    ∧ isSupportedFormat "notes.txt" = false
    ∧ isSupportedFormat "song.mp3" = true
    ∧ isSupportedFormat "song.MP3" = true
    ∧ isSupportedFormat "Song.Mp3" = true := by
  refine ⟨?_, by decide, by decide, by decide, by decide⟩
  intro base fs src showName h1 h2
  unfold copyAudioFile
  rw [h1, h2]
  rfl

/-- Witness for C7: copying `notes.txt` fails and writes nothing. -/
theorem unsupported_format_rejected_witness :
    copyAudioFile [] { files := [(["u", "notes.txt"], [7])], dirs := [] } ["u", "notes.txt"] "S"
      = ({ files := [(["u", "notes.txt"], [7])], dirs := [] },
         .error ("Unsupported audio format: " ++ (splitExt (pathName ["u", "notes.txt"])).2)) :=
  unsupported_format_rejected.1 [] { files := [(["u", "notes.txt"], [7])], dirs := [] }
    ["u", "notes.txt"] "S" (by decide) (by decide)

/-! ### C6: the unique-name probe loop -/

lemma uniqueNameGo_finds (fs : FS) (dir : List String) (stem sfx : String) :
    ∀ (fuel counter k : Nat), counter + fuel = 10001 → counter ≤ k → k ≤ 10000 →
    (∀ j, counter ≤ j → j < k → fs.pathExists (dir ++ [candName stem sfx j]) = true) →
    fs.pathExists (dir ++ [candName stem sfx k]) = false →
    uniqueNameGo fs dir stem sfx fuel counter = .ok (dir ++ [candName stem sfx k]) := by
  intro fuel
  induction fuel with
  | zero => intro counter k h1 h2 h3 _ _; omega
  | succ fuel ih =>
    intro counter k h1 h2 h3 hall hfree
    unfold uniqueNameGo
    dsimp only
    by_cases hc : counter = k
    · subst hc
      rw [hfree]
      rfl
    · have hlt : counter < k := lt_of_le_of_ne h2 hc
      rw [hall counter le_rfl hlt]
      rw [if_neg (by simp), if_neg (by omega)]
      exact ih (counter + 1) k (by omega) (by omega) h3
        (fun j hj1 hj2 => hall j (by omega) hj2) hfree

lemma uniqueNameGo_exhausts (fs : FS) (dir : List String) (stem sfx : String) :
    ∀ (fuel counter : Nat), counter + fuel = 10001 → 1 ≤ counter → counter ≤ 10000 →
    (∀ j, counter ≤ j → j ≤ 10000 → fs.pathExists (dir ++ [candName stem sfx j]) = true) →
    uniqueNameGo fs dir stem sfx fuel counter
      = .error ("Could not generate unique filename for: " ++ (stem ++ sfx)) := by
  intro fuel
  induction fuel with
  | zero => intro counter h1 h2 h3 _; omega
  | succ fuel ih =>
    intro counter h1 h2 h3 hall
    unfold uniqueNameGo
    dsimp only
    rw [hall counter le_rfl h3]
    by_cases hb : 10000 < counter + 1
    · rw [if_neg (by simp), if_pos hb]
    · rw [if_neg (by simp), if_neg hb]
      exact ih (counter + 1) (by omega) (by omega) (by omega)
        (fun j hj1 hj2 => hall j (by omega) hj2)

/-- C6: the unique-name generator probes `stem_1.ext`, `stem_2.ext`, … in
increasing order and returns the first unused candidate; probing is
bounded at 10000 candidates, beyond which it fails with the
could-not-generate error (`ResourceExhausted`) instead of looping. -/
theorem getUniqueFilename_probes_in_order_bounded :
    (∀ (fs : FS) (dir : List String) (filename stem sfx : String) (k : Nat),
       splitExt filename = (stem, sfx) → 1 ≤ k → k ≤ 10000 →
       (∀ j, 1 ≤ j → j < k → fs.pathExists (dir ++ [candName stem sfx j]) = true) →
       fs.pathExists (dir ++ [candName stem sfx k]) = false →
       getUniqueFilename fs dir filename = .ok (dir ++ [candName stem sfx k]))
    ∧ (∀ (fs : FS) (dir : List String) (filename stem sfx : String),
       splitExt filename = (stem, sfx) →
       (∀ j, 1 ≤ j → j ≤ 10000 → fs.pathExists (dir ++ [candName stem sfx j]) = true) →
       getUniqueFilename fs dir filename
         = .error ("Could not generate unique filename for: " ++ (stem ++ sfx))) := by
  constructor
  · intro fs dir filename stem sfx k hsplit hk1 hk2 hall hfree
    unfold getUniqueFilename
    rw [hsplit]
    exact uniqueNameGo_finds fs dir stem sfx 10000 1 k rfl hk1 hk2
      (fun j hj1 hj2 => hall j hj1 hj2) hfree
  · intro fs dir filename stem sfx hsplit hall
    unfold getUniqueFilename
    rw [hsplit]
    exact uniqueNameGo_exhausts fs dir stem sfx 10000 1 rfl le_rfl (by omega) hall

/-- Files taking all probe candidates `song_1.mp3` … `song_n.mp3` in
directory `d`; used to build the C6 witness filesystem. -/
def candFiles : Nat → List (List String × List Nat)
  | 0 => []
  | n + 1 => (["d", candName "song" ".mp3" (n + 1)], []) :: candFiles n

/-- A filesystem in which all 10000 probe candidates for `song.mp3` in
directory `d` are taken; used by the C6 witness. -/
def c6bigFS : FS := { files := candFiles 10000, dirs := [] }

lemma candFiles_mem :
    ∀ n j, 1 ≤ j → j ≤ n → (["d", candName "song" ".mp3" j], ([] : List Nat)) ∈ candFiles n := by
  intro n
  induction n with
  | zero => intro j h1 h2; omega
  | succ n ih =>
    intro j h1 h2
    simp only [candFiles]
    rcases Nat.lt_or_ge j (n + 1) with hlt | hge
    · exact List.mem_cons_of_mem _ (ih j h1 (by omega))
    · have hj : j = n + 1 := by omega
      subst hj
      exact List.mem_cons_self _ _

lemma c6bigFS_all_taken :
    ∀ j, 1 ≤ j → j ≤ 10000 →
      c6bigFS.pathExists (["d"] ++ [candName "song" ".mp3" j]) = true := by
  intro j h1 h2
  have hany : c6bigFS.files.any (fun f => f.1 == ["d"] ++ [candName "song" ".mp3" j]) = true :=
    List.any_eq_true.mpr ⟨_, candFiles_mem 10000 j h1 h2,
      beq_self_eq_true (["d", candName "song" ".mp3" j])⟩
  unfold FS.pathExists
  rw [hany]
  rfl

/-- Witness for C6: on an empty filesystem the first candidate `song_1.mp3`
is returned; on a filesystem with all 10000 candidates taken the probe
fails with the could-not-generate error. -/
theorem getUniqueFilename_probes_in_order_bounded_witness :
    getUniqueFilename { files := [], dirs := [] } ["d"] "song.mp3"
        = .ok (["d"] ++ [candName "song" ".mp3" 1])
    ∧ getUniqueFilename c6bigFS ["d"] "song.mp3"
        = .error ("Could not generate unique filename for: " ++ ("song" ++ ".mp3")) :=
  ⟨getUniqueFilename_probes_in_order_bounded.1 { files := [], dirs := [] } ["d"]
      "song.mp3" "song" ".mp3" 1 (by decide) le_rfl (by omega)
      (fun j hj1 hj2 => absurd (Nat.lt_of_le_of_lt hj1 hj2) (Nat.lt_irrefl 1)) (by decide),
   getUniqueFilename_probes_in_order_bounded.2 c6bigFS ["d"] "song.mp3" "song" ".mp3"
      (by decide) c6bigFS_all_taken⟩

/-! ### C2: content-identity comparison and copy deduplication -/

lemma chunkCmp_iff :
    ∀ (fuel : Nat) (c1 c2 : List Nat), c1.length < fuel → c1.length = c2.length →
      (chunkCmp fuel c1 c2 = true ↔ c1 = c2) := by
  intro fuel
  induction fuel with
  | zero => intro c1 c2 h1 _; omega
  | succ fuel ih =>
    intro c1 c2 h1 hlen
    simp only [chunkCmp]
    by_cases hchunk : c1.take 8192 = c2.take 8192
    · rw [if_neg (not_not_intro hchunk)]
      by_cases hemp : (c1.take 8192).isEmpty
      · rw [if_pos hemp]
        have hc1 : c1 = [] := by
          cases c1 with
          | nil => rfl
          | cons a l => simp [List.take_succ_cons, List.isEmpty] at hemp
        have hc2 : c2 = [] := List.eq_nil_of_length_eq_zero (by rw [← hlen, hc1]; rfl)
        subst hc1; subst hc2
        simp
      · rw [if_neg hemp]
        have hc1ne : c1 ≠ [] := by
          intro hh
          rw [hh] at hemp
          exact hemp rfl
        have hlen1 : 0 < c1.length := List.length_pos.mpr hc1ne
        have ihd := ih (c1.drop 8192) (c2.drop 8192)
          (by rw [List.length_drop]; omega)
          (by rw [List.length_drop, List.length_drop, hlen])
        rw [ihd]
        constructor
        · intro hd
          rw [← List.take_append_drop 8192 c1, ← List.take_append_drop 8192 c2, hchunk, hd]
        · intro hcc
          rw [hcc]
    · rw [if_pos hchunk]
      exact iff_of_false (by simp) (fun hcc => hchunk (by rw [hcc]))

/-- The chunked comparison decides byte-for-byte equality. -/
lemma filesAreIdentical_iff (c1 c2 : List Nat) :
    filesAreIdentical c1 c2 = true ↔ c1 = c2 := by
  unfold filesAreIdentical
  by_cases h : c1.length = c2.length
  · rw [if_neg (not_not_intro h)]
    exact chunkCmp_iff (c1.length + 1) c1 c2 (by omega) h
  · rw [if_pos h]
    exact iff_of_false (by simp) (fun hcc => h (by rw [hcc]))

lemma FS.mkdir_files (fs : FS) (p : List String) : (fs.mkdir p).files = fs.files := by
  unfold FS.mkdir
  split <;> rfl

lemma foldl_mkdir_files (ps : List (List String)) :
    ∀ fs : FS, (ps.foldl FS.mkdir fs).files = fs.files := by
  induction ps with
  | nil => intro fs; rfl
  | cons p ps ih =>
    intro fs
    rw [List.foldl_cons, ih, FS.mkdir_files]

lemma FS.mkdirP_files (fs : FS) (p : List String) : (fs.mkdirP p).files = fs.files :=
  foldl_mkdir_files (pathPrefixes p) fs

lemma FS.mkdirP_read (fs : FS) (p q : List String) : (fs.mkdirP p).read q = fs.read q := by
  unfold FS.read
  rw [FS.mkdirP_files]

lemma mem_mkdir_dirs (fs : FS) (p q : List String) :
    q ∈ (fs.mkdir p).dirs ↔ q = p ∨ q ∈ fs.dirs := by
  unfold FS.mkdir
  split
  · rename_i hc
    have hp : p ∈ fs.dirs := by simpa using hc
    constructor
    · exact Or.inr
    · rintro (rfl | hq)
      · exact hp
      · exact hq
  · simp [List.mem_cons]

lemma mem_foldl_mkdir_dirs (ps : List (List String)) :
    ∀ (fs : FS) (q : List String),
      q ∈ ((ps.foldl FS.mkdir fs).dirs) ↔ q ∈ ps ∨ q ∈ fs.dirs := by
  induction ps with
  | nil => intro fs q; simp
  | cons p ps ih =>
    intro fs q
    rw [List.foldl_cons, ih, mem_mkdir_dirs]
    simp [List.mem_cons]
    tauto

lemma mem_mkdirP_dirs (fs : FS) (p q : List String) :
    q ∈ (fs.mkdirP p).dirs ↔ q ∈ pathPrefixes p ∨ q ∈ fs.dirs :=
  mem_foldl_mkdir_dirs (pathPrefixes p) fs q

lemma pathPrefixes_length_le {p q : List String} (h : q ∈ pathPrefixes p) :
    q.length ≤ p.length := by
  obtain ⟨i, hi, rfl⟩ := List.mem_map.mp h
  rw [List.length_take]
  exact min_le_right _ _

lemma FS.mkdirP_pathExists_long (fs : FS) {d q : List String} (h : d.length < q.length) :
    (fs.mkdirP d).pathExists q = fs.pathExists q := by
  unfold FS.pathExists
  rw [FS.mkdirP_files]
  have hdirs : ((fs.mkdirP d).dirs.contains q) = (fs.dirs.contains q) := by
    have hnp : q ∉ pathPrefixes d := fun hq => by
      have := pathPrefixes_length_le hq
      omega
    cases hc : fs.dirs.contains q with
    | true =>
      have hm : q ∈ fs.dirs := by simpa using hc
      have : q ∈ (fs.mkdirP d).dirs := (mem_mkdirP_dirs fs d q).mpr (Or.inr hm)
      simpa using this
    | false =>
      have hm : q ∉ fs.dirs := by simpa using hc
      have : q ∉ (fs.mkdirP d).dirs := fun hq =>
        (mem_mkdirP_dirs fs d q).mp hq |>.elim hnp hm
      simpa using this
  rw [hdirs]

lemma FS.mkdir_noop (fs : FS) {p : List String} (h : p ∈ fs.dirs) : fs.mkdir p = fs := by
  unfold FS.mkdir
  rw [if_pos (by simpa using h)]

lemma foldl_mkdir_noop (ps : List (List String)) :
    ∀ fs : FS, (∀ p ∈ ps, p ∈ fs.dirs) → ps.foldl FS.mkdir fs = fs := by
  induction ps with
  | nil => intro fs _; rfl
  | cons p ps ih =>
    intro fs h
    rw [List.foldl_cons, FS.mkdir_noop fs (h p (List.mem_cons_self p ps))]
    exact ih fs (fun x hx => h x (List.mem_cons_of_mem p hx))

lemma FS.mkdirP_noop (fs : FS) {p : List String}
    (h : ∀ q ∈ pathPrefixes p, q ∈ fs.dirs) : fs.mkdirP p = fs :=
  foldl_mkdir_noop (pathPrefixes p) fs h

lemma FS.write_dirs (fs : FS) (p : List String) (c : List Nat) :
    (fs.write p c).dirs = fs.dirs := rfl

lemma FS.read_some_pathExists {fs : FS} {p : List String} {c : List Nat}
    (h : fs.read p = some c) : fs.pathExists p = true := by
  unfold FS.read at h
  cases hf : fs.files.find? (fun f => f.1 == p) with
  | none => rw [hf] at h; cases h
  | some f =>
    have hmem := List.mem_of_find?_eq_some hf
    have hpred := List.find?_some hf
    unfold FS.pathExists
    rw [List.any_eq_true.mpr ⟨f, hmem, hpred⟩]
    rfl

lemma FS.write_read_self (fs : FS) (p : List String) (c : List Nat) :
    (fs.write p c).read p = some c := by
  unfold FS.read FS.write
  simp

lemma find?_filter_ne (l : List (List String × List Nat)) (p q : List String) (h : q ≠ p) :
    (l.filter (fun f => !(f.1 == p))).find? (fun f => f.1 == q)
      = l.find? (fun f => f.1 == q) := by
  induction l with
  | nil => rfl
  | cons a l ih =>
    by_cases ha : a.1 = q
    · have hap : ¬(a.1 == p) = true := by simp [ha, h]
      rw [List.filter_cons, if_pos (by simpa using hap)]
      rw [List.find?_cons_of_pos _ (by simp [ha]), List.find?_cons_of_pos _ (by simp [ha])]
    · rw [List.filter_cons]
      split
      · rw [List.find?_cons_of_neg _ (by simpa using ha),
          List.find?_cons_of_neg _ (by simpa using ha)]
        exact ih
      · rw [List.find?_cons_of_neg _ (by simpa using ha)]
        exact ih

lemma FS.write_read_other (fs : FS) {p q : List String} (c : List Nat) (h : q ≠ p) :
    (fs.write p c).read q = fs.read q := by
  unfold FS.read FS.write
  dsimp only
  rw [List.find?_cons_of_neg _ (by simpa using fun hh : p = q => h hh.symm)]
  rw [find?_filter_ne fs.files p q h]

lemma FS.write_pathExists_self (fs : FS) (p : List String) (c : List Nat) :
    (fs.write p c).pathExists p = true :=
  FS.read_some_pathExists (FS.write_read_self fs p c)

lemma any_filter_ne (l : List (List String × List Nat)) (p q : List String) (h : q ≠ p) :
    (l.filter (fun f => !(f.1 == p))).any (fun f => f.1 == q)
      = l.any (fun f => f.1 == q) := by
  induction l with
  | nil => rfl
  | cons a l ih =>
    by_cases ha : a.1 = q
    · have hap : ¬(a.1 == p) = true := by simp [ha, h]
      rw [List.filter_cons, if_pos (by simpa using hap)]
      simp [List.any_cons, ha, ih]
    · rw [List.filter_cons]
      split
      · simp only [List.any_cons, ih]
      · simp only [List.any_cons, ih]
        have : (a.1 == q) = false := by simpa using ha
        rw [this]
        simp

lemma FS.write_pathExists_other (fs : FS) {p q : List String} (c : List Nat) (h : q ≠ p) :
    (fs.write p c).pathExists q = fs.pathExists q := by
  unfold FS.pathExists FS.write
  dsimp only
  rw [List.any_cons]
  have : ((p, c).1 == q) = false := by simpa using fun hh : p = q => h hh.symm
  rw [this, any_filter_ne fs.files p q h]
  simp

/-- C2 (amended): (i) whenever a file already sits at the destination name
with content byte-identical to the source, `copy_audio_file` returns the
existing destination path and writes no file (only directories are
ensured); (ii) when the destination name is initially unoccupied, copying
the same unchanged source twice yields the same destination path both
times, the content sits at that path, and the second call leaves the
filesystem exactly as the first left it. -/
theorem copy_dedup_amended :
    (∀ (base : List String) (fs : FS) (src : List String) (showName : String) (c : List Nat),
       fs.read src = some c →
       isSupportedFormat (pathName src) = true →
       fs.read (showAudioDirectory base showName ++ [pathName src]) = some c →
       copyAudioFile base fs src showName
         = (fs.mkdirP (showAudioDirectory base showName),
            .ok (showAudioDirectory base showName ++ [pathName src]))
       ∧ (fs.mkdirP (showAudioDirectory base showName)).files = fs.files)
    ∧ (∀ (base : List String) (fs : FS) (src : List String) (showName : String) (c : List Nat),
       fs.read src = some c →
       isSupportedFormat (pathName src) = true →
       fs.pathExists (showAudioDirectory base showName ++ [pathName src]) = false →
       copyAudioFile base fs src showName
         = ((fs.mkdirP (showAudioDirectory base showName)).write
              (showAudioDirectory base showName ++ [pathName src]) c,
            .ok (showAudioDirectory base showName ++ [pathName src]))
       ∧ ((fs.mkdirP (showAudioDirectory base showName)).write
              (showAudioDirectory base showName ++ [pathName src]) c).read
            (showAudioDirectory base showName ++ [pathName src]) = some c
       ∧ copyAudioFile base
            ((fs.mkdirP (showAudioDirectory base showName)).write
              (showAudioDirectory base showName ++ [pathName src]) c)
            src showName
         = ((fs.mkdirP (showAudioDirectory base showName)).write
              (showAudioDirectory base showName ++ [pathName src]) c,
            .ok (showAudioDirectory base showName ++ [pathName src]))) := by
  have hidc : ∀ c : List Nat, filesAreIdentical c c = true :=
    fun c => (filesAreIdentical_iff c c).mpr rfl
  constructor
  · intro base fs src showName c hsrc hfmt hdest
    have hex : fs.pathExists src = true := FS.read_some_pathExists hsrc
    have h1 : (fs.mkdirP (showAudioDirectory base showName)).read src = some c := by
      rw [FS.mkdirP_read]; exact hsrc
    have h2 : (fs.mkdirP (showAudioDirectory base showName)).read
        (showAudioDirectory base showName ++ [pathName src]) = some c := by
      rw [FS.mkdirP_read]; exact hdest
    have h3 : (fs.mkdirP (showAudioDirectory base showName)).pathExists
        (showAudioDirectory base showName ++ [pathName src]) = true :=
      FS.read_some_pathExists h2
    refine ⟨?_, FS.mkdirP_files fs _⟩
    unfold copyAudioFile
    simp only [hex, hfmt, h1, h2, h3, hidc c]
    rfl
  · intro base fs src showName c hsrc hfmt hfresh
    have hex : fs.pathExists src = true := FS.read_some_pathExists hsrc
    have hsd : src ≠ showAudioDirectory base showName ++ [pathName src] := by
      intro hh
      rw [← hh, hex] at hfresh
      cases hfresh
    have hlen : (showAudioDirectory base showName).length
        < (showAudioDirectory base showName ++ [pathName src]).length := by
      rw [List.length_append]
      simp
    have h1 : (fs.mkdirP (showAudioDirectory base showName)).read src = some c := by
      rw [FS.mkdirP_read]; exact hsrc
    have h2 : (fs.mkdirP (showAudioDirectory base showName)).pathExists
        (showAudioDirectory base showName ++ [pathName src]) = false := by
      rw [FS.mkdirP_pathExists_long fs hlen]; exact hfresh
    have hwr := FS.write_read_self (fs.mkdirP (showAudioDirectory base showName))
      (showAudioDirectory base showName ++ [pathName src]) c
    have hwe := FS.write_pathExists_self (fs.mkdirP (showAudioDirectory base showName))
      (showAudioDirectory base showName ++ [pathName src]) c
    refine ⟨?_, hwr, ?_⟩
    · unfold copyAudioFile
      simp only [hex, hfmt, h1, h2, hwe]
      rfl
    · have hsrc2 : ((fs.mkdirP (showAudioDirectory base showName)).write
          (showAudioDirectory base showName ++ [pathName src]) c).read src = some c := by
        rw [FS.write_read_other _ _ hsd, FS.mkdirP_read]
        exact hsrc
      have hex2 : ((fs.mkdirP (showAudioDirectory base showName)).write
          (showAudioDirectory base showName ++ [pathName src]) c).pathExists src = true :=
        FS.read_some_pathExists hsrc2
      have hmk2 : ((fs.mkdirP (showAudioDirectory base showName)).write
          (showAudioDirectory base showName ++ [pathName src]) c).mkdirP
            (showAudioDirectory base showName)
          = (fs.mkdirP (showAudioDirectory base showName)).write
              (showAudioDirectory base showName ++ [pathName src]) c := by
        apply FS.mkdirP_noop
        intro q hq
        rw [FS.write_dirs]
        exact (mem_mkdirP_dirs fs (showAudioDirectory base showName) q).mpr (Or.inl hq)
      unfold copyAudioFile
      simp only [hex2, hfmt, hmk2, hsrc2, hwe, hwr, hidc c]
      rfl

/-- Initial filesystem for the C2 counterexample: the source `song.mp3`
(bytes `[0]`) and a different file of the same name (bytes `[1]`) already
sitting at the destination name in the show's audio directory. -/
def c2fs0 : FS :=
  { files := [(["srcdir", "song.mp3"], [0]), (["shows", "S", "audio", "song.mp3"], [1])],
    dirs := [] }

/-- C2 counterexample: with a different-content file already at the
destination name, copying the same unchanged source twice returns two
distinct destination paths (`song_1.mp3`, then `song_2.mp3`) and leaves
two copies of the source bytes on disk — so the claim's unconditional
"same destination path both times, not duplicated" is false. -/
theorem copy_twice_not_idempotent :
    (copyAudioFile [] c2fs0 ["srcdir", "song.mp3"] "S").2
        = .ok ["shows", "S", "audio", "song_1.mp3"]
    ∧ (copyAudioFile [] (copyAudioFile [] c2fs0 ["srcdir", "song.mp3"] "S").1
          ["srcdir", "song.mp3"] "S").2
        = .ok ["shows", "S", "audio", "song_2.mp3"]
    ∧ (["shows", "S", "audio", "song_1.mp3"] : List String)
        ≠ ["shows", "S", "audio", "song_2.mp3"]
    ∧ (copyAudioFile [] (copyAudioFile [] c2fs0 ["srcdir", "song.mp3"] "S").1
          ["srcdir", "song.mp3"] "S").1.read ["shows", "S", "audio", "song_1.mp3"]
        = some [0]
    ∧ (copyAudioFile [] (copyAudioFile [] c2fs0 ["srcdir", "song.mp3"] "S").1
          ["srcdir", "song.mp3"] "S").1.read ["shows", "S", "audio", "song_2.mp3"]
        = some [0] :=
  ⟨rfl, rfl, by decide, rfl, rfl⟩

/-- Filesystem for the C2 witness's identical-destination case. -/
def c2fsA : FS :=
  { files := [(["s", "a.mp3"], [5]), (["shows", "S", "audio", "a.mp3"], [5])], dirs := [] }

/-- Filesystem for the C2 witness's fresh-destination case. -/
def c2fsB : FS := { files := [(["s", "b.mp3"], [7])], dirs := [] }

/-- Witness for the amended C2 at concrete filesystems. -/
theorem copy_dedup_amended_witness :
    (copyAudioFile [] c2fsA ["s", "a.mp3"] "S"
        = (c2fsA.mkdirP (showAudioDirectory [] "S"),
           .ok (showAudioDirectory [] "S" ++ [pathName ["s", "a.mp3"]]))
     ∧ (c2fsA.mkdirP (showAudioDirectory [] "S")).files = c2fsA.files)
    ∧ (copyAudioFile [] c2fsB ["s", "b.mp3"] "S"
        = ((c2fsB.mkdirP (showAudioDirectory [] "S")).write
             (showAudioDirectory [] "S" ++ [pathName ["s", "b.mp3"]]) [7],
           .ok (showAudioDirectory [] "S" ++ [pathName ["s", "b.mp3"]]))
       ∧ ((c2fsB.mkdirP (showAudioDirectory [] "S")).write
             (showAudioDirectory [] "S" ++ [pathName ["s", "b.mp3"]]) [7]).read
           (showAudioDirectory [] "S" ++ [pathName ["s", "b.mp3"]]) = some [7]
       ∧ copyAudioFile []
           ((c2fsB.mkdirP (showAudioDirectory [] "S")).write
             (showAudioDirectory [] "S" ++ [pathName ["s", "b.mp3"]]) [7])
           ["s", "b.mp3"] "S"
         = ((c2fsB.mkdirP (showAudioDirectory [] "S")).write
             (showAudioDirectory [] "S" ++ [pathName ["s", "b.mp3"]]) [7],
           .ok (showAudioDirectory [] "S" ++ [pathName ["s", "b.mp3"]]))) :=
  ⟨copy_dedup_amended.1 [] c2fsA ["s", "a.mp3"] "S" [5] rfl rfl rfl,
   copy_dedup_amended.2 [] c2fsB ["s", "b.mp3"] "S" [7] rfl rfl rfl⟩

/-! ### C5: auto-save debouncing (`AppController._trigger_auto_save`,
`AppController._on_auto_save`)

The controller keeps a single-shot timer; `_trigger_auto_save` (the
"model changed" notification) restarts it with the debounce interval, and
on timeout `_on_auto_save` performs one `ShowRepository.save`.  The
single-shot restartable timer itself is a Qt object, so its semantics is
modelled from the spec (logical deadlines against a clock): the state
holds an optional pending deadline; arming replaces it; the timer fires
when the deadline is reached before any re-arm. -/

/-- Auto-save state: the pending single-shot deadline, and the times at
which a repository save was performed. -/
structure AutoSaveState where
  deadline : Option Nat
  saves : List Nat
deriving DecidableEq, Repr

/-- Models `_trigger_auto_save` at time `now` with debounce interval `d`:
`QTimer.start` arms (or re-arms from now) the single-shot timer. -/
def triggerAutoSave (now d : Nat) (st : AutoSaveState) : AutoSaveState :=
  { st with deadline := some (now + d) }

/-- Models the timer firing at its deadline: `_on_auto_save` performs one
save; the single-shot timer does not re-arm. -/
def timerFire (now : Nat) (st : AutoSaveState) : AutoSaveState :=
  { deadline := none, saves := st.saves ++ [now] }

/-- Modelled from the spec: drives the notification times (ascending)
through the single-shot debounce timer.  Before handling a notification,
the pending timer fires if its deadline has passed; after the last
notification, any pending timer fires at its deadline. -/
def runAutoSave (d : Nat) : AutoSaveState → List Nat → AutoSaveState
  | st, [] =>
    match st.deadline with
    | some dl => timerFire dl st
    | none => st
  | st, t :: ts =>
    match st.deadline with
    | some dl =>
      if dl ≤ t then runAutoSave d (triggerAutoSave t d (timerFire dl st)) ts
      else runAutoSave d (triggerAutoSave t d st) ts
    | none => runAutoSave d (triggerAutoSave t d st) ts

lemma runAutoSave_burst (d : Nat) :
    ∀ (ts : List Nat) (t0 : Nat) (saves0 : List Nat),
      List.Chain' (fun a b => a ≤ b ∧ b < a + d) (t0 :: ts) →
      (runAutoSave d { deadline := some (t0 + d), saves := saves0 } ts).saves
        = saves0 ++ [(t0 :: ts).getLast?.getD 0 + d] := by
  intro ts
  induction ts with
  | nil =>
    intro t0 saves0 _
    rfl
  | cons t1 rest ih =>
    intro t0 saves0 hchain
    have h01 : t0 ≤ t1 ∧ t1 < t0 + d := (List.chain'_cons.mp hchain).1
    have hchain' : List.Chain' (fun a b => a ≤ b ∧ b < a + d) (t1 :: rest) :=
      (List.chain'_cons.mp hchain).2
    unfold runAutoSave
    dsimp only
    rw [if_neg (by omega)]
    exact ih t1 saves0 hchain'

/-- C5: any burst of notifications in which each one arrives less than
the debounce interval after the previous results in exactly one save,
performed one debounce interval after the last notification; each
notification re-arms the single-shot timer from its own time. -/
theorem debounce_coalesces (d : Nat) (ts : List Nat) (tl : Nat)
    (hchain : List.Chain' (fun a b => a ≤ b ∧ b < a + d) ts)
    (hlast : ts.getLast? = some tl) :
    (runAutoSave d { deadline := none, saves := [] } ts).saves = [tl + d] := by
  cases ts with
  | nil => cases hlast
  | cons t0 rest =>
    have hb := runAutoSave_burst d rest t0 [] hchain
    rw [hlast, Option.getD_some, List.nil_append] at hb
    exact hb

/-- Witness for C5: three rapid notifications at 0, 100, 200 with a
500 ms debounce produce exactly one save, at 700. -/
theorem debounce_coalesces_witness :
    (runAutoSave 500 { deadline := none, saves := [] } [0, 100, 200]).saves = [200 + 500] :=
  debounce_coalesces 500 [0, 100, 200] 200
    (by constructor
        · exact ⟨by omega, by omega⟩
        · constructor
          · exact ⟨by omega, by omega⟩
          · exact List.chain'_singleton 200)
    (by decide)

end RTM
